import Mathlib

/-
  Verification development for the unified-diff parsing core of PaStA
  (src/PaStA/Repository/Patch.py).

  Python strings are modelled as lists of characters (`Str`), and the
  line-oriented parser `Diff.parse_diff_nosplit` is modelled as a family of
  structurally / well-founded recursive functions over the remaining list of
  lines, mirroring the destructive `diff.pop(0)` loop of the source.
-/

set_option autoImplicit false

namespace PaStA

/-- A Python string: a sequence of characters. -/
abbrev Str := List Char

/-- ASCII whitespace, as matched by the regex class backslash-s in Patch.py. -/
def isWs (c : Char) : Bool :=
  c = ' ' || c = '\t' || c = '\n' || c = '\r' || c = '\x0b' || c = '\x0c'

/-- Substring containment, modelling the Python expression `needle in hay`. -/
def strContains (hay needle : Str) : Bool :=
  hay.tails.any (fun t => needle.isPrefixOf t)

/-- Value of a nonempty digit run, modelling Python `int(...)` on the
regex groups of `HUNK_REGEX` (digits only, no sign). -/
def natOfDigits (ds : Str) : Nat :=
  ds.foldl (fun n c => 10 * n + (c.toNat - '0'.toNat)) 0

/-- `DIFF_SELECTOR_REGEX`: the line starts with one of the three characters
minus, plus, at-sign. -/
def diffSelector : Str → Bool
  | [] => false
  | c :: _ => c = '-' || c = '+' || c = '@'

/-- `FILE_SEPARATOR_MINUS_REGEX`: the line starts with three minus signs and a
space; group 1 is the maximal run of non-whitespace characters that follows
(the old-side path), the rest of the line is ignored. -/
def minusMatch : Str → Option Str
  | '-' :: '-' :: '-' :: ' ' :: rest => some (rest.takeWhile (fun c => !isWs c))
  | _ => none

/-- `FILE_SEPARATOR_PLUS_REGEX`: the line starts with three plus signs and a
space; group 1 is the maximal run of non-whitespace characters that follows
(the new-side path). -/
def plusMatch : Str → Option Str
  | '+' :: '+' :: '+' :: ' ' :: rest => some (rest.takeWhile (fun c => !isWs c))
  | _ => none

/-- `EXCLUDE_CC_REGEX`: the line is `diff --cc ` followed by at least one
character (a combined-diff header). -/
def ccMatch : Str → Bool
  | 'd' :: 'i' :: 'f' :: 'f' :: ' ' :: '-' :: '-' :: 'c' :: 'c' :: ' ' :: rest =>
      !rest.isEmpty
  | _ => false

/-- The optional `,<count>` group of `HUNK_REGEX`.  If the input starts with a
comma there must follow at least one digit (otherwise the whole regex fails,
since after dropping the optional group a comma cannot match the mandatory
space); otherwise the group is absent. -/
def optCommaCount : Str → Option (Option Nat × Str)
  | ',' :: r =>
      let d := r.takeWhile Char.isDigit
      if d.isEmpty then none
      else some (some (natOfDigits d), r.dropWhile Char.isDigit)
  | r => some (none, r)

/-- `HUNK_REGEX`: a hunk header line.  Returns the optional old-side count
(group 2), the optional new-side count (group 4) and the heading text
(group 5, after an optional single space following the closing at-signs).
The mandatory start positions (groups 1 and 3) are parsed but ignored, as in
the source. -/
def hunkMatch : Str → Option (Option Nat × Option Nat × Str)
  | '@' :: '@' :: ' ' :: '-' :: r0 =>
      if (r0.takeWhile Char.isDigit).isEmpty then none
      else
        match optCommaCount (r0.dropWhile Char.isDigit) with
        | none => none
        | some (g2, r2) =>
          match r2 with
          | ' ' :: '+' :: r3 =>
              if (r3.takeWhile Char.isDigit).isEmpty then none
              else
                match optCommaCount (r3.dropWhile Char.isDigit) with
                | none => none
                | some (g4, r5) =>
                  match r5 with
                  | ' ' :: '@' :: '@' :: r6 =>
                      match r6 with
                      | ' ' :: r7 => some (g2, g4, r7)
                      | _ => some (g2, g4, r6)
                  | _ => none
          | _ => none
  | _ => none

/-- The accumulator for one `@@ ... @@` block: ordered insertion, deletion and
context payloads, mirroring class `Hunk`. -/
structure Hunk where
  insertions : List Str
  deletions : List Str
  context : List Str
  deriving Repr, DecidableEq

/-- `Hunk()` with all arguments defaulted. -/
def Hunk.empty : Hunk := ⟨[], [], []⟩

/-- `Hunk.merge`: append the other hunk's three sequences, order preserving. -/
def Hunk.merge (h o : Hunk) : Hunk :=
  ⟨h.insertions ++ o.insertions, h.deletions ++ o.deletions, h.context ++ o.context⟩

@[simp] theorem Hunk.empty_merge (h : Hunk) : Hunk.empty.merge h = h := by
  cases h
  simp [Hunk.merge, Hunk.empty]

/-- The two hard parse failures of `parse_diff_nosplit`: the unhandled
`.group` on a failed plus-header match (line 110) and the `pop` from an
exhausted list inside the hunk body loop (line 137). -/
inductive ParseError where
  | malformedPlusHeader
  | truncatedHunk
  deriving Repr, DecidableEq

instance {e a : Type} [DecidableEq e] [DecidableEq a] : DecidableEq (Except e a) :=
  fun x y =>
    match x, y with
    | .error u, .error v =>
        if h : u = v then isTrue (by rw [h]) else isFalse (by intro hc; cases hc; exact h rfl)
    | .error _, .ok _ => isFalse (by intro hc; cases hc)
    | .ok _, .error _ => isFalse (by intro hc; cases hc)
    | .ok u, .ok v =>
        if h : u = v then isTrue (by rw [h]) else isFalse (by intro hc; cases hc; exact h rfl)

/-- A file-segment key: the pair (old path, new path). -/
abbrev FileKey := Str × Str

/-- The `patches` dictionary: insertion-ordered association list from file
keys to insertion-ordered association lists from hunk headings to hunks. -/
abbrev Patches := List (FileKey × List (Str × Hunk))

/-- Insert-or-merge a hunk under a heading, modelling
`patches[idx][heading] = Hunk()` followed by `.merge(h)` on a Python dict. -/
def addHunkToFile (hs : List (Str × Hunk)) (heading : Str) (h : Hunk) :
    List (Str × Hunk) :=
  match hs with
  | [] => [(heading, Hunk.empty.merge h)]
  | (k, v) :: rest =>
      if k = heading then (k, v.merge h) :: rest
      else (k, v) :: addHunkToFile rest heading h

/-- Insert-or-merge a hunk under a file key and heading, modelling lines
169-175 of Patch.py. -/
def addHunk (ps : Patches) (key : FileKey) (heading : Str) (h : Hunk) : Patches :=
  match ps with
  | [] => [(key, addHunkToFile [] heading h)]
  | (k, v) :: rest =>
      if k = key then (k, addHunkToFile v heading h) :: rest
      else (k, v) :: addHunk rest key heading h

/-- Association-list lookup of a file key in the patches mapping. -/
def lookupKey : Patches → FileKey → Option (List (Str × Hunk))
  | [], _ => none
  | (k, v) :: rest, key => if k = key then some v else lookupKey rest key

/-- Association-list lookup of a heading among the hunks of one file. -/
def assocFindHunk : List (Str × Hunk) → Str → Option Hunk
  | [], _ => none
  | (k, v) :: rest, hd => if k = hd then some v else assocFindHunk rest hd

/-- Lookup of the hunk stored under a file key and heading. -/
def lookupHeading (ps : Patches) (key : FileKey) (heading : Str) : Option Hunk :=
  match lookupKey ps key with
  | none => none
  | some hs => assocFindHunk hs heading

/-- The `/dev/null` sentinel path. -/
def devNull : Str := "/dev/null".toList

/-- The result value of the parser, mirroring class `Diff`: the patches
mapping and the size metric. -/
structure Diff where
  patches : Patches
  lines : Nat
  deriving Repr, DecidableEq

/-- One iteration of the `affected` loop of `Diff.__init__`: each of the two
paths of a file key that does not contain `/dev/null` as a substring
contributes its first two characters stripped. -/
def affectedStep (s : Finset Str) (kv : FileKey × List (Str × Hunk)) :
    Finset Str :=
  let s1 := if strContains kv.1.1 devNull then s else insert (kv.1.1.drop 2) s
  if strContains kv.1.2 devNull then s1 else insert (kv.1.2.drop 2) s1

/-- The derived `affected` set computed in `Diff.__init__`. -/
def Diff.affected (d : Diff) : Finset Str :=
  d.patches.foldl affectedStep ∅

/-- Python `text.split('\n')`: split on every newline, keeping empty pieces;
the result is always nonempty (empty input yields one empty line).  Carriage
returns are ordinary characters and never split. -/
def splitLines : Str → List Str
  | [] => [[]]
  | c :: rest =>
      match splitLines rest with
      | [] => [[]]
      | l :: ls => if c = '\n' then [] :: l :: ls else (c :: l) :: ls

/-- The scan of lines 102-106 of Patch.py: pop lines from the front until one
matches the minus file header; return its group 1 and the lines after it, or
`none` when the input is exhausted without a match. -/
def skipToMinus : List Str → Option (Str × List Str)
  | [] => none
  | l :: ls =>
      match minusMatch l with
      | some p => some (p, ls)
      | none => skipToMinus ls

/-- The hunk-body loop of lines 136-160 of Patch.py.  `ll`/`rr` are the
old-side and new-side targets, `dc`/`ac` the running deletion and addition
counters, and `ins`/`dels`/`ctx` the accumulated payloads.  The loop stops as
soon as both counters equal their targets; popping from an exhausted list is
the `truncatedHunk` failure. -/
def consumeHunkBody (ll rr : Nat) :
    Nat → Nat → List Str → List Str → List Str → List Str →
    Except ParseError (List Str × List Str × List Str × List Str)
  | dc, ac, ins, dels, ctx, [] =>
      if dc = ll ∧ ac = rr then .ok (ins, dels, ctx, [])
      else .error .truncatedHunk
  | dc, ac, ins, dels, ctx, [] :: rest =>
      if dc = ll ∧ ac = rr then .ok (ins, dels, ctx, [] :: rest)
      else consumeHunkBody ll rr (dc + 1) (ac + 1) ins dels (ctx ++ [[]]) rest
  | dc, ac, ins, dels, ctx, (c :: payload) :: rest =>
      if dc = ll ∧ ac = rr then .ok (ins, dels, ctx, (c :: payload) :: rest)
      else if c = '+' then
        consumeHunkBody ll rr dc (ac + 1) (ins ++ [payload]) dels ctx rest
      else if c = '-' then
        consumeHunkBody ll rr (dc + 1) ac ins (dels ++ [payload]) ctx rest
      else if c = ' ' then
        consumeHunkBody ll rr (dc + 1) (ac + 1) ins dels (ctx ++ [payload]) rest
      else if c = '\\' then
        consumeHunkBody ll rr dc ac ins dels ctx rest
      else
        consumeHunkBody ll rr (dc + 1) (ac + 1) ins dels ctx rest

/-- The hunk-body loop only consumes lines: the unconsumed remainder is a
suffix of the input. -/
theorem consumeHunkBody_ok_length (ll rr : Nat) (diff : List Str) :
    ∀ dc ac ins dels ctx i d c rest,
      consumeHunkBody ll rr dc ac ins dels ctx diff = .ok (i, d, c, rest) →
      rest.length ≤ diff.length := by
  induction diff with
  | nil =>
      intro dc ac ins dels ctx i d c rest h
      simp only [consumeHunkBody] at h
      split at h
      · cases h; simp
      · cases h
  | cons line tl ih =>
      intro dc ac ins dels ctx i d c rest h
      match line, h with
      | [], h =>
          simp only [consumeHunkBody] at h
          split at h
          · cases h; simp
          · exact Nat.le_succ_of_le (ih _ _ _ _ _ _ _ _ _ h)
      | ch :: payload, h =>
          simp only [consumeHunkBody] at h
          split at h
          · cases h; simp
          · split at h
            · exact Nat.le_succ_of_le (ih _ _ _ _ _ _ _ _ _ h)
            · split at h
              · exact Nat.le_succ_of_le (ih _ _ _ _ _ _ _ _ _ h)
              · split at h
                · exact Nat.le_succ_of_le (ih _ _ _ _ _ _ _ _ _ h)
                · split at h
                  · exact Nat.le_succ_of_le (ih _ _ _ _ _ _ _ _ _ h)
                  · exact Nat.le_succ_of_le (ih _ _ _ _ _ _ _ _ _ h)

/-- Lines 117-125 of Patch.py: a hunk count defaults to 1 when its regex
group is absent. -/
def countDefault : Option Nat → Nat
  | some n => n
  | none => 1

set_option linter.unusedVariables false in
/-- The hunk-header loop of lines 114-175 of Patch.py: while the next line
matches `HUNK_REGEX`, pop it, apply the default of 1 for absent counts,
consume the hunk body, drop empty payloads and insert-or-merge the resulting
hunk.  Returns the updated patches and the unconsumed remainder. -/
def hunkLoop (key : FileKey) (ps : Patches) (diff : List Str) :
    Except ParseError (Patches × List Str) :=
  match diff with
  | [] => .ok (ps, [])
  | first :: rest =>
      match hunkMatch first with
      | none => .ok (ps, first :: rest)
      | some (g2, g4, heading) =>
          match hbody : consumeHunkBody (countDefault g2) (countDefault g4)
              0 0 [] [] [] rest with
          | .error e => .error e
          | .ok (ins, dels, ctx, rest2) =>
              hunkLoop key
                (addHunk ps key heading
                  ⟨ins.filter (fun l => !l.isEmpty),
                   dels.filter (fun l => !l.isEmpty),
                   ctx.filter (fun l => !l.isEmpty)⟩)
                rest2
  termination_by diff.length
  decreasing_by
    exact Nat.lt_succ_of_le (consumeHunkBody_ok_length _ _ _ _ _ _ _ _ _ _ _ _ hbody)

/-- The hunk-header loop only consumes lines: the unconsumed remainder is a
suffix-length bound of the input. -/
theorem hunkLoop_ok_length (key : FileKey) (ps : Patches) (diff : List Str) :
    ∀ ps2 rest, hunkLoop key ps diff = .ok (ps2, rest) → rest.length ≤ diff.length := by
  induction ps, diff using hunkLoop.induct key with
  | case1 ps =>
      intro ps2 rest h
      simp only [hunkLoop] at h
      cases h
      simp
  | case2 ps first rest hm =>
      intro ps2 r h
      simp only [hunkLoop, hm] at h
      cases h
      simp
  | case3 ps first rest g2 g4 heading hm e hbody =>
      intro ps2 r h
      simp only [hunkLoop, hm] at h
      split at h
      · cases h
      · next ins dels ctx rest2 heq =>
          rw [hbody] at heq
          cases heq
  | case4 ps first rest g2 g4 heading hm ins dels ctx rest2 hbody ih =>
      intro ps2 r h
      simp only [hunkLoop, hm] at h
      split at h
      · cases h
      · next a b c d heq =>
          rw [hbody] at heq
          injection heq with heq2
          obtain ⟨rfl, rfl, rfl, rfl⟩ :
              ins = a ∧ dels = b ∧ ctx = c ∧ rest2 = d := by
            have := heq2
            simpa using this
          have h1 := ih _ _ h
          have h2 := consumeHunkBody_ok_length _ _ _ _ _ _ _ _ _ _ _ _ hbody
          simp only [List.length_cons]
          omega

/-- The minus-header scan consumes at least the matched line. -/
theorem skipToMinus_some_length (diff : List Str) :
    ∀ p rest, skipToMinus diff = some (p, rest) → rest.length < diff.length := by
  induction diff with
  | nil => intro p rest h; cases h
  | cons l ls ih =>
      intro p rest h
      simp only [skipToMinus] at h
      split at h
      · cases h
        simp
      · exact Nat.lt_succ_of_lt (ih _ _ h)

set_option linter.unusedVariables false in
/-- The file-segment loop of lines 101-175 of Patch.py: scan for a minus
header (trailing noise without one ends the parse), stop successfully if it
was the last line, require the very next line to match the plus header (a
mismatch is the hard `malformedPlusHeader` failure), then consume consecutive
hunks for the file key and repeat. -/
def fileLoop (ps : Patches) (diff : List Str) : Except ParseError Patches :=
  match hskip : skipToMinus diff with
  | none => .ok ps
  | some (minusPath, rest) =>
      match rest with
      | [] => .ok ps
      | plusLine :: rest2 =>
          match plusMatch plusLine with
          | none => .error .malformedPlusHeader
          | some plusPath =>
              match hloop : hunkLoop (minusPath, plusPath) ps rest2 with
              | .error e => .error e
              | .ok (ps2, rest3) => fileLoop ps2 rest3
  termination_by diff.length
  decreasing_by
    have h1 := skipToMinus_some_length _ _ _ hskip
    have h2 := hunkLoop_ok_length _ _ _ _ _ hloop
    simp only [List.length_cons] at h1
    omega

/-- `Diff.parse_diff_nosplit` (lines 89-177 of Patch.py): compute the size
metric over all selector lines, return the empty zero-size Diff on a
combined-diff first line, and otherwise run the file-segment loop. -/
def Diff.parse_diff_nosplit (diff : List Str) : Except ParseError Diff :=
  let diff_lines := ((diff.filter diffSelector).map List.length).sum
  if diff ≠ [] ∧ ccMatch (diff.headD []) then .ok ⟨[], 0⟩
  else
    match fileLoop [] diff with
    | .error e => .error e
    | .ok ps => .ok ⟨ps, diff_lines⟩

/-- `Diff.parse_diff` (lines 83-87 of Patch.py): split the input at newlines
only (never at carriage returns) and parse the resulting lines. -/
def Diff.parse_diff (s : Str) : Except ParseError Diff :=
  Diff.parse_diff_nosplit (splitLines s)

/-- The running counters of the hunk-body loop for one consumed line:
the pair is (deletion counter, addition counter). -/
def cntrStep (dc ac : Nat) (line : Str) : Nat × Nat :=
  match line with
  | [] => (dc + 1, ac + 1)
  | c :: _ =>
      if c = '+' then (dc, ac + 1)
      else if c = '-' then (dc + 1, ac)
      else if c = ' ' then (dc + 1, ac + 1)
      else if c = '\\' then (dc, ac)
      else (dc + 1, ac + 1)

/-- The running counters of the hunk-body loop after consuming a list of
lines, starting from the given counter values. -/
def cntrsFrom (dc ac : Nat) : List Str → Nat × Nat
  | [] => (dc, ac)
  | l :: ls => cntrsFrom (cntrStep dc ac l).1 (cntrStep dc ac l).2 ls

theorem hunkLoop_nil (key : FileKey) (ps : Patches) :
    hunkLoop key ps [] = .ok (ps, []) := by
  simp [hunkLoop]

theorem hunkLoop_noMatch (key : FileKey) (ps : Patches) (first : Str)
    (rest : List Str) (h : hunkMatch first = none) :
    hunkLoop key ps (first :: rest) = .ok (ps, first :: rest) := by
  simp [hunkLoop, h]

theorem hunkLoop_hunk (key : FileKey) (ps : Patches) (first : Str)
    (rest : List Str) (g2 g4 : Option Nat) (heading : Str)
    (h : hunkMatch first = some (g2, g4, heading)) :
    hunkLoop key ps (first :: rest) =
      match consumeHunkBody (countDefault g2) (countDefault g4) 0 0 [] [] [] rest with
      | .error e => .error e
      | .ok (ins, dels, ctx, rest2) =>
          hunkLoop key
            (addHunk ps key heading
              ⟨ins.filter (fun l => !l.isEmpty),
               dels.filter (fun l => !l.isEmpty),
               ctx.filter (fun l => !l.isEmpty)⟩)
            rest2 := by
  rw [hunkLoop]
  simp only [h]
  split
  · next e heq => rw [heq]
  · next ins dels ctx rest2 heq => rw [heq]

theorem fileLoop_none (ps : Patches) (diff : List Str)
    (h : skipToMinus diff = none) : fileLoop ps diff = .ok ps := by
  rw [fileLoop]
  split
  · rfl
  · next p rest heq => simp [h] at heq

theorem fileLoop_last (ps : Patches) (diff : List Str) (p : Str)
    (h : skipToMinus diff = some (p, [])) : fileLoop ps diff = .ok ps := by
  rw [fileLoop]
  split
  · next heq => simp [h] at heq
  · next p' rest' heq =>
      rw [h] at heq
      cases heq
      rfl

theorem fileLoop_plusFail (ps : Patches) (diff : List Str) (p pl : Str)
    (r2 : List Str) (h : skipToMinus diff = some (p, pl :: r2))
    (h2 : plusMatch pl = none) :
    fileLoop ps diff = .error .malformedPlusHeader := by
  rw [fileLoop]
  split
  · next heq => simp [h] at heq
  · next p' rest' heq =>
      rw [h] at heq
      cases heq
      simp only [h2]

theorem fileLoop_seg (ps : Patches) (diff : List Str) (p pl : Str)
    (r2 : List Str) (q : Str) (h : skipToMinus diff = some (p, pl :: r2))
    (h2 : plusMatch pl = some q) :
    fileLoop ps diff =
      match hunkLoop (p, q) ps r2 with
      | .error e => .error e
      | .ok (ps2, rest3) => fileLoop ps2 rest3 := by
  rw [fileLoop]
  split
  · next heq => simp [h] at heq
  · next p' rest' heq =>
      rw [h] at heq
      cases heq
      simp only [h2]
      split
      · next e heq2 => rw [heq2]
      · next ps2 rest3 heq2 => rw [heq2]

theorem parse_diff_nosplit_cc (first : Str) (rest : List Str)
    (hcc : ccMatch first = true) :
    Diff.parse_diff_nosplit (first :: rest) = .ok ⟨[], 0⟩ := by
  simp [Diff.parse_diff_nosplit, hcc]

theorem parse_diff_nosplit_noCC (diff : List Str)
    (hcc : ccMatch (diff.headD []) = false) :
    Diff.parse_diff_nosplit diff =
      match fileLoop [] diff with
      | .error e => .error e
      | .ok ps => .ok ⟨ps, ((diff.filter diffSelector).map List.length).sum⟩ := by
  have hn : ¬(diff ≠ [] ∧ ccMatch (diff.headD []) = true) := by
    rintro ⟨h1, h2⟩
    rw [hcc] at h2
    cases h2
  simp only [Diff.parse_diff_nosplit]
  rw [if_neg hn]

/-- If no line matches the minus file header, the scan exhausts the input. -/
theorem skipToMinus_eq_none (diff : List Str)
    (h : ∀ l ∈ diff, minusMatch l = none) : skipToMinus diff = none := by
  induction diff with
  | nil => rfl
  | cons l ls ih =>
      simp only [skipToMinus, h l (by simp)]
      exact ih (fun x hx => h x (by simp [hx]))

theorem hunkLoop_hunk_err (key : FileKey) (ps : Patches) (first : Str)
    (rest : List Str) (g2 g4 : Option Nat) (heading : Str) (e : ParseError)
    (hm : hunkMatch first = some (g2, g4, heading))
    (hb : consumeHunkBody (countDefault g2) (countDefault g4) 0 0 [] [] [] rest =
      .error e) :
    hunkLoop key ps (first :: rest) = .error e := by
  rw [hunkLoop_hunk key ps first rest g2 g4 heading hm, hb]

theorem hunkLoop_hunk_ok (key : FileKey) (ps : Patches) (first : Str)
    (rest : List Str) (g2 g4 : Option Nat) (heading : Str)
    (ins dels ctx : List Str) (rest2 : List Str)
    (hm : hunkMatch first = some (g2, g4, heading))
    (hb : consumeHunkBody (countDefault g2) (countDefault g4) 0 0 [] [] [] rest =
      .ok (ins, dels, ctx, rest2)) :
    hunkLoop key ps (first :: rest) =
      hunkLoop key
        (addHunk ps key heading
          ⟨ins.filter (fun l => !l.isEmpty),
           dels.filter (fun l => !l.isEmpty),
           ctx.filter (fun l => !l.isEmpty)⟩)
        rest2 := by
  rw [hunkLoop_hunk key ps first rest g2 g4 heading hm, hb]

theorem fileLoop_seg_err (ps : Patches) (diff : List Str) (p pl : Str)
    (r2 : List Str) (q : Str) (e : ParseError)
    (h : skipToMinus diff = some (p, pl :: r2)) (h2 : plusMatch pl = some q)
    (h3 : hunkLoop (p, q) ps r2 = .error e) :
    fileLoop ps diff = .error e := by
  rw [fileLoop_seg ps diff p pl r2 q h h2, h3]

theorem fileLoop_seg_ok (ps : Patches) (diff : List Str) (p pl : Str)
    (r2 : List Str) (q : Str) (ps2 : Patches) (rest3 : List Str)
    (h : skipToMinus diff = some (p, pl :: r2)) (h2 : plusMatch pl = some q)
    (h3 : hunkLoop (p, q) ps r2 = .ok (ps2, rest3)) :
    fileLoop ps diff = fileLoop ps2 rest3 := by
  rw [fileLoop_seg ps diff p pl r2 q h h2, h3]

/-- Counting invariant of the hunk-body loop: when every input line is a
plus, minus or space line with a nonempty payload, a successful run adds
exactly `rr - ac` payloads to insertions-plus-context and `ll - dc` payloads
to deletions-plus-context, and all accumulated payloads stay nonempty. -/
theorem consumeHunkBody_counts (ll rr : Nat) (diff : List Str) :
    ∀ dc ac ins dels ctx i d c rest,
      (∀ l ∈ diff,
        (l.head? = some '+' ∨ l.head? = some '-' ∨ l.head? = some ' ') ∧
        l.tail ≠ []) →
      (∀ x ∈ ins, x ≠ []) → (∀ x ∈ dels, x ≠ []) → (∀ x ∈ ctx, x ≠ []) →
      consumeHunkBody ll rr dc ac ins dels ctx diff = .ok (i, d, c, rest) →
      (i.length + c.length + ac = rr + (ins.length + ctx.length) ∧
       d.length + c.length + dc = ll + (dels.length + ctx.length)) ∧
      ((∀ x ∈ i, x ≠ []) ∧ (∀ x ∈ d, x ≠ []) ∧ (∀ x ∈ c, x ≠ [])) := by
  induction diff with
  | nil =>
      intro dc ac ins dels ctx i d c rest hall hins hdels hctx h
      simp only [consumeHunkBody] at h
      split at h
      · next hg =>
          cases h
          exact ⟨⟨by omega, by omega⟩, hins, hdels, hctx⟩
      · cases h
  | cons l tl ih =>
      intro dc ac ins dels ctx i d c rest hall hins hdels hctx h
      have hl := hall l (by simp)
      have htl : ∀ x ∈ tl,
          (x.head? = some '+' ∨ x.head? = some '-' ∨ x.head? = some ' ') ∧
          x.tail ≠ [] :=
        fun x hx => hall x (by simp [hx])
      match l, hl, h with
      | [], hl, h => simp at hl
      | ch :: payload, hl, h =>
          have hpay : payload ≠ [] := by simpa using hl.2
          simp only [List.head?_cons, Option.some.injEq] at hl
          simp only [consumeHunkBody] at h
          split at h
          · next hg =>
              cases h
              exact ⟨⟨by omega, by omega⟩, hins, hdels, hctx⟩
          · rcases hl.1 with hch | hch | hch
            all_goals subst hch
            · rw [if_pos rfl] at h
              have hins2 : ∀ x ∈ ins ++ [payload], x ≠ [] := by
                intro x hx
                rcases List.mem_append.mp hx with hx' | hx'
                · exact hins x hx'
                · simp at hx'
                  subst hx'
                  exact hpay
              obtain ⟨⟨e1, e2⟩, hne⟩ := ih _ _ _ _ _ _ _ _ _ htl hins2 hdels hctx h
              simp only [List.length_append, List.length_singleton] at e1 e2
              exact ⟨⟨by omega, by omega⟩, hne⟩
            · rw [if_neg (by decide : ¬('-' = '+')), if_pos rfl] at h
              have hdels2 : ∀ x ∈ dels ++ [payload], x ≠ [] := by
                intro x hx
                rcases List.mem_append.mp hx with hx' | hx'
                · exact hdels x hx'
                · simp at hx'
                  subst hx'
                  exact hpay
              obtain ⟨⟨e1, e2⟩, hne⟩ := ih _ _ _ _ _ _ _ _ _ htl hins hdels2 hctx h
              simp only [List.length_append, List.length_singleton] at e1 e2
              exact ⟨⟨by omega, by omega⟩, hne⟩
            · rw [if_neg (by decide : ¬(' ' = '+')),
                if_neg (by decide : ¬(' ' = '-')), if_pos rfl] at h
              have hctx2 : ∀ x ∈ ctx ++ [payload], x ≠ [] := by
                intro x hx
                rcases List.mem_append.mp hx with hx' | hx'
                · exact hctx x hx'
                · simp at hx'
                  subst hx'
                  exact hpay
              obtain ⟨⟨e1, e2⟩, hne⟩ := ih _ _ _ _ _ _ _ _ _ htl hins hdels hctx2 h
              simp only [List.length_append, List.length_singleton] at e1 e2
              exact ⟨⟨by omega, by omega⟩, hne⟩

/-- C2: whenever the file-segment scan finds a line matching the minus file
header and the immediately following line does not match the plus file
header, parsing fails hard with the `malformedPlusHeader` error — regardless
of the patches accumulated so far, so no partially-populated Diff is
returned.  The first conjunct states this for every invocation of the
file-segment loop; the second lifts it to `Diff.parse_diff` when the scan of
the whole input finds such a pair. -/
theorem claim_C2 :
    (∀ (ps : Patches) (diff : List Str) (p pl : Str) (r2 : List Str),
        skipToMinus diff = some (p, pl :: r2) → plusMatch pl = none →
        fileLoop ps diff = .error .malformedPlusHeader) ∧
    (∀ (s p pl : Str) (r2 : List Str),
        ccMatch ((splitLines s).headD []) = false →
        skipToMinus (splitLines s) = some (p, pl :: r2) → plusMatch pl = none →
        Diff.parse_diff s = .error .malformedPlusHeader) := by
  constructor
  · intro ps diff p pl r2 h h2
    exact fileLoop_plusFail ps diff p pl r2 h h2
  · intro s p pl r2 hcc h h2
    unfold Diff.parse_diff
    rw [parse_diff_nosplit_noCC _ hcc]
    rw [fileLoop_plusFail [] _ p pl r2 h h2]

theorem claim_C2_witness :
    fileLoop [] [("--- a").toList, ("xyz").toList] = .error .malformedPlusHeader ∧
    Diff.parse_diff ("--- a\nxyz").toList = .error .malformedPlusHeader :=
  ⟨claim_C2.1 [] _ ("a").toList ("xyz").toList [] (by decide) (by decide),
   claim_C2.2 _ ("a").toList ("xyz").toList [] (by decide) (by decide) (by decide)⟩

/-- C5: for every input whose first line is not a combined-diff header, if
`parse_diff` returns a Diff then its size metric equals the sum of the
lengths of all raw lines (split on newline only) whose first character is
minus, plus or at-sign — independently of what structural parsing found. -/
theorem claim_C5 (s : Str) (d : Diff)
    (hcc : ccMatch ((splitLines s).headD []) = false)
    (hok : Diff.parse_diff s = .ok d) :
    d.lines = (((splitLines s).filter diffSelector).map List.length).sum := by
  unfold Diff.parse_diff at hok
  rw [parse_diff_nosplit_noCC _ hcc] at hok
  cases hfl : fileLoop [] (splitLines s) with
  | error e => rw [hfl] at hok; cases hok
  | ok ps => rw [hfl] at hok; cases hok; rfl

theorem claim_C5_witness :
    (⟨[], 6⟩ : Diff).lines =
      (((splitLines ("+a\rb\n-c\nz").toList).filter diffSelector).map
        List.length).sum := by
  apply claim_C5
  · decide
  · unfold Diff.parse_diff
    rw [parse_diff_nosplit_noCC _ (by decide)]
    rw [fileLoop_none _ _ (skipToMinus_eq_none _ (by decide))]
    decide

/-- C6: for every input whose first line matches the combined-diff header
pattern `diff --cc <path>`, `parse_diff` returns the Diff with empty patches
mapping and size metric 0, whatever the remaining content is, and raises no
error. -/
theorem claim_C6 (s first : Str) (rest : List Str)
    (hsplit : splitLines s = first :: rest) (hcc : ccMatch first = true) :
    Diff.parse_diff s = .ok ⟨[], 0⟩ := by
  unfold Diff.parse_diff
  rw [hsplit]
  exact parse_diff_nosplit_cc first rest hcc

theorem claim_C6_witness :
    Diff.parse_diff ("diff --cc foo.c\n+++ junk\n--- junk2\n@@ bad").toList =
      .ok ⟨[], 0⟩ :=
  claim_C6 _ ("diff --cc foo.c").toList
    [("+++ junk").toList, ("--- junk2").toList, ("@@ bad").toList]
    (by decide) (by decide)

/-- C9, counterexample to the claimed zero size metric: the input `+x`
is nonempty and contains no minus/plus file-header pair, and `parse_diff`
returns a Diff with empty patches but size metric 2, not 0. -/
theorem claim_C9_cex :
    Diff.parse_diff ("+x").toList = .ok ⟨[], 2⟩ ∧ (2 : Nat) ≠ 0 := by
  constructor
  · unfold Diff.parse_diff
    rw [parse_diff_nosplit_noCC _ (by decide)]
    rw [fileLoop_none _ _ (skipToMinus_eq_none _ (by decide))]
    decide
  · decide

/-- The newline split never produces an empty list of lines: Python
`split('\n')` returns at least one (possibly empty) piece. -/
theorem splitLines_ne_nil (s : Str) : splitLines s ≠ [] := by
  cases s with
  | nil => simp [splitLines]
  | cons c rest =>
      simp only [splitLines]
      cases splitLines rest with
      | nil => simp
      | cons l ls => by_cases hc : c = '\n' <;> simp [hc]

/-- C9 as amended: for every input in which no line matches the minus
file-header pattern (in particular the empty input), `parse_diff` returns,
without error, a Diff with an empty patches mapping; its size metric is 0
when the first line is a combined-diff header, and otherwise equals the
pre-scan sum over selector lines (0 for the empty input, but not 0 in
general). -/
theorem claim_C9_amended (s : Str)
    (hnm : ∀ l ∈ splitLines s, minusMatch l = none) :
    Diff.parse_diff s =
      .ok ⟨[], if ccMatch ((splitLines s).headD []) then 0
               else (((splitLines s).filter diffSelector).map List.length).sum⟩ := by
  cases hcc : ccMatch ((splitLines s).headD []) with
  | false =>
      unfold Diff.parse_diff
      rw [parse_diff_nosplit_noCC _ hcc,
        fileLoop_none _ _ (skipToMinus_eq_none _ hnm)]
      simp
  | true =>
      unfold Diff.parse_diff
      match hsp : splitLines s, splitLines_ne_nil s with
      | first :: rest, _ =>
          rw [hsp] at hcc
          simp only [List.headD_cons] at hcc
          rw [parse_diff_nosplit_cc first rest hcc]
          simp

theorem claim_C9_witness : Diff.parse_diff ("").toList = .ok ⟨[], 0⟩ := by
  rw [claim_C9_amended ("").toList (by decide)]
  decide

/-- C10: a nonempty hunk-body line whose first character is none of plus,
minus, space or backslash is consumed, increments both the old-side and the
new-side running counters (like a context line), and contributes no payload
to any of the three accumulated sequences. -/
theorem claim_C10 (ll rr dc ac : Nat) (ins dels ctx : List Str) (c : Char)
    (t : Str) (rest : List Str)
    (hne : ¬(dc = ll ∧ ac = rr))
    (hc1 : c ≠ '+') (hc2 : c ≠ '-') (hc3 : c ≠ ' ') (hc4 : c ≠ '\\') :
    consumeHunkBody ll rr dc ac ins dels ctx ((c :: t) :: rest) =
      consumeHunkBody ll rr (dc + 1) (ac + 1) ins dels ctx rest := by
  simp only [consumeHunkBody]
  rw [if_neg hne, if_neg hc1, if_neg hc2, if_neg hc3, if_neg hc4]

theorem claim_C10_witness :
    consumeHunkBody 1 1 0 0 [] [] [] [("@@ x").toList, (" y").toList] =
      consumeHunkBody 1 1 1 1 [] [] [] [(" y").toList] :=
  claim_C10 1 1 0 0 [] [] [] '@' (['@', ' ', 'x']) [(" y").toList]
    (by decide) (by decide) (by decide) (by decide) (by decide)

/-- C4, counterexample: a backslash-initial hunk-body line is NOT counted
toward the targets.  At deletion target 2 and addition target 1 with running
counters (1, 0), consuming the single line backslash-m leaves the counters
unchanged so the input runs out and parsing fails, whereas the claim (the
line counts toward both targets) would make the counters reach (2, 1) and
the loop return successfully. -/
theorem claim_C4_cex :
    consumeHunkBody 2 1 1 0 [] [['a']] [] [['\\', 'm']] =
      .error .truncatedHunk ∧
    (Except.error .truncatedHunk :
        Except ParseError (List Str × List Str × List Str × List Str)) ≠
      .ok ([], [['a']], [], []) := by
  exact ⟨by decide, by decide⟩

/-- C4 as amended: a hunk-body line whose first character is a backslash
(the no-newline-at-end-of-file marker) is consumed, contributes no payload,
and counts toward neither the old-side nor the new-side running target. -/
theorem claim_C4_amended (ll rr dc ac : Nat) (ins dels ctx : List Str)
    (t : Str) (rest : List Str) (hne : ¬(dc = ll ∧ ac = rr)) :
    consumeHunkBody ll rr dc ac ins dels ctx (('\\' :: t) :: rest) =
      consumeHunkBody ll rr dc ac ins dels ctx rest := by
  simp only [consumeHunkBody]
  rw [if_neg hne, if_neg (by decide : ¬('\\' = '+')),
    if_neg (by decide : ¬('\\' = '-')), if_neg (by decide : ¬('\\' = ' '))]
  simp

theorem claim_C4_amended_witness :
    consumeHunkBody 2 1 1 0 [] [['a']] [] [['\\', 'm'], [' ', 'c']] =
      consumeHunkBody 2 1 1 0 [] [['a']] [] [[' ', 'c']] :=
  claim_C4_amended 2 1 1 0 [] [['a']] [] ['m'] [[' ', 'c']] (by decide)

/-- C1: for a well-formed single-hunk unified diff — a minus header, a plus
header, one hunk header, and a body of plus/minus/space lines with nonempty
payloads that exactly satisfies the declared counts — the parsed Hunk has
`insertions.length + context.length` equal to the declared new-side count
(default 1 when the count group is omitted) and
`deletions.length + context.length` equal to the declared old-side count
(default 1 when omitted). -/
theorem claim_C1 (s mp pp hline : Str) (body : List Str)
    (g2 g4 : Option Nat) (heading : Str) (ins dels ctx : List Str)
    (hsplit : splitLines s =
      ('-' :: '-' :: '-' :: ' ' :: mp) :: ('+' :: '+' :: '+' :: ' ' :: pp) ::
        hline :: body)
    (hm : hunkMatch hline = some (g2, g4, heading))
    (hbody : ∀ l ∈ body,
      (l.head? = some '+' ∨ l.head? = some '-' ∨ l.head? = some ' ') ∧
      l.tail ≠ [])
    (hconsume : consumeHunkBody (countDefault g2) (countDefault g4)
        0 0 [] [] [] body = .ok (ins, dels, ctx, [])) :
    ∃ (n : Nat) (hk : Hunk),
      Diff.parse_diff s =
        .ok ⟨[((mp.takeWhile (fun c => !isWs c),
                pp.takeWhile (fun c => !isWs c)), [(heading, hk)])], n⟩ ∧
      hk.insertions.length + hk.context.length = countDefault g4 ∧
      hk.deletions.length + hk.context.length = countDefault g2 := by
  obtain ⟨⟨e1, e2⟩, hni, hnd, hnc⟩ :=
    consumeHunkBody_counts (countDefault g2) (countDefault g4) body
      0 0 [] [] [] ins dels ctx [] hbody (by simp) (by simp) (by simp) hconsume
  have fi : ins.filter (fun l => !l.isEmpty) = ins :=
    List.filter_eq_self.mpr (fun a ha => by simpa using hni a ha)
  have fd : dels.filter (fun l => !l.isEmpty) = dels :=
    List.filter_eq_self.mpr (fun a ha => by simpa using hnd a ha)
  have fc : ctx.filter (fun l => !l.isEmpty) = ctx :=
    List.filter_eq_self.mpr (fun a ha => by simpa using hnc a ha)
  refine ⟨(((splitLines s).filter diffSelector).map List.length).sum,
    ⟨ins, dels, ctx⟩, ?_, by simpa using e1, by simpa using e2⟩
  have hskip : skipToMinus
      (('-' :: '-' :: '-' :: ' ' :: mp) :: ('+' :: '+' :: '+' :: ' ' :: pp) ::
        hline :: body) =
      some (mp.takeWhile (fun c => !isWs c),
        ('+' :: '+' :: '+' :: ' ' :: pp) :: hline :: body) := by
    simp [skipToMinus, minusMatch]
  have hplus : plusMatch ('+' :: '+' :: '+' :: ' ' :: pp) =
      some (pp.takeWhile (fun c => !isWs c)) := by
    simp [plusMatch]
  have hhl : hunkLoop
      (mp.takeWhile (fun c => !isWs c), pp.takeWhile (fun c => !isWs c)) []
      (hline :: body) =
      .ok ([((mp.takeWhile (fun c => !isWs c),
              pp.takeWhile (fun c => !isWs c)),
             [(heading, (⟨ins, dels, ctx⟩ : Hunk))])], []) := by
    rw [hunkLoop_hunk_ok _ _ _ _ _ _ _ _ _ _ _ hm hconsume, fi, fd, fc,
      hunkLoop_nil]
    simp [addHunk, addHunkToFile]
  unfold Diff.parse_diff
  rw [hsplit, parse_diff_nosplit_noCC _ (by rfl),
    fileLoop_seg_ok _ _ _ _ _ _ _ _ hskip hplus hhl,
    fileLoop_none _ _ (by rfl)]

theorem claim_C1_witness :
    ∃ (n : Nat) (hk : Hunk),
      Diff.parse_diff ("--- a/f\n+++ b/f\n@@ -1,2 +1,3 @@\n l1\n+ad\n l2").toList =
        .ok ⟨[((("a/f").toList, ("b/f").toList),
               [(([] : Str), hk)])], n⟩ ∧
      hk.insertions.length + hk.context.length = countDefault (some 3) ∧
      hk.deletions.length + hk.context.length = countDefault (some 2) :=
  claim_C1 _ ("a/f").toList ("b/f").toList ("@@ -1,2 +1,3 @@").toList
    [(" l1").toList, ("+ad").toList, (" l2").toList]
    (some 2) (some 3) [] [("ad").toList] [] [("l1").toList, ("l2").toList]
    (by decide) (by decide) (by decide) (by decide)

/-- If the running counters never simultaneously equal the two targets at
any prefix of the remaining body, the hunk-body loop exhausts the input and
fails with `truncatedHunk`. -/
theorem consumeHunkBody_error_of (ll rr : Nat) (body : List Str) :
    ∀ dc ac ins dels ctx,
      (∀ k, k ≤ body.length → cntrsFrom dc ac (body.take k) ≠ (ll, rr)) →
      consumeHunkBody ll rr dc ac ins dels ctx body = .error .truncatedHunk := by
  induction body with
  | nil =>
      intro dc ac ins dels ctx hk
      have h0 := hk 0 (by simp)
      have hg : ¬(dc = ll ∧ ac = rr) := by
        simpa [cntrsFrom, Prod.ext_iff] using h0
      simp only [consumeHunkBody]
      rw [if_neg hg]
  | cons l tl ih =>
      intro dc ac ins dels ctx hk
      have h0 := hk 0 (by simp)
      have hg : ¬(dc = ll ∧ ac = rr) := by
        simpa [cntrsFrom, Prod.ext_iff] using h0
      have hk' : ∀ k, k ≤ tl.length →
          cntrsFrom (cntrStep dc ac l).1 (cntrStep dc ac l).2 (tl.take k) ≠
            (ll, rr) := by
        intro k hkk
        have h1 := hk (k + 1) (by simpa using Nat.succ_le_succ hkk)
        simpa [cntrsFrom] using h1
      match l with
      | [] =>
          simp only [consumeHunkBody]
          rw [if_neg hg]
          exact ih (dc + 1) (ac + 1) ins dels (ctx ++ [[]])
            (by simpa [cntrStep] using hk')
      | c :: payload =>
          simp only [consumeHunkBody]
          rw [if_neg hg]
          by_cases h1 : c = '+'
          · subst h1
            rw [if_pos rfl]
            exact ih _ _ _ _ _ (by simpa [cntrStep] using hk')
          · rw [if_neg h1]
            by_cases h2 : c = '-'
            · subst h2
              rw [if_pos rfl]
              exact ih _ _ _ _ _ (by simpa [cntrStep] using hk')
            · rw [if_neg h2]
              by_cases h3 : c = ' '
              · subst h3
                rw [if_pos rfl]
                exact ih _ _ _ _ _ (by simpa [cntrStep] using hk')
              · rw [if_neg h3]
                by_cases h4 : c = '\\'
                · subst h4
                  rw [if_pos rfl]
                  exact ih _ _ _ _ _
                    (by simpa [cntrStep, h1, h2, h3] using hk')
                · rw [if_neg h4]
                  exact ih _ _ _ _ _
                    (by simpa [cntrStep, h1, h2, h3, h4] using hk')

/-- C3: a processed hunk header whose declared old-side and new-side counts
are never both satisfied before the input is exhausted makes parsing fail
with the `truncatedHunk` parse error instead of returning a Diff or looping
past the end of the input.  First conjunct: this holds for every invocation
of the hunk loop, at any position and with any accumulated patches.  Second
conjunct: lifted to `Diff.parse_diff` for an input whose first three lines
are a minus header, a plus header and such a hunk header. -/
theorem claim_C3 :
    (∀ (key : FileKey) (ps : Patches) (hline : Str) (body : List Str)
        (g2 g4 : Option Nat) (heading : Str),
      hunkMatch hline = some (g2, g4, heading) →
      (∀ k, k ≤ body.length →
        cntrsFrom 0 0 (body.take k) ≠ (countDefault g2, countDefault g4)) →
      hunkLoop key ps (hline :: body) = .error .truncatedHunk) ∧
    (∀ (s mp pp hline : Str) (body : List Str)
        (g2 g4 : Option Nat) (heading : Str),
      splitLines s =
        ('-' :: '-' :: '-' :: ' ' :: mp) :: ('+' :: '+' :: '+' :: ' ' :: pp) ::
          hline :: body →
      hunkMatch hline = some (g2, g4, heading) →
      (∀ k, k ≤ body.length →
        cntrsFrom 0 0 (body.take k) ≠ (countDefault g2, countDefault g4)) →
      Diff.parse_diff s = .error .truncatedHunk) := by
  have main : ∀ (key : FileKey) (ps : Patches) (hline : Str) (body : List Str)
      (g2 g4 : Option Nat) (heading : Str),
      hunkMatch hline = some (g2, g4, heading) →
      (∀ k, k ≤ body.length →
        cntrsFrom 0 0 (body.take k) ≠ (countDefault g2, countDefault g4)) →
      hunkLoop key ps (hline :: body) = .error .truncatedHunk := by
    intro key ps hline body g2 g4 heading hm hns
    exact hunkLoop_hunk_err _ _ _ _ _ _ _ _ hm
      (consumeHunkBody_error_of _ _ body 0 0 [] [] [] hns)
  refine ⟨main, ?_⟩
  intro s mp pp hline body g2 g4 heading hsplit hm hns
  have hskip : skipToMinus
      (('-' :: '-' :: '-' :: ' ' :: mp) :: ('+' :: '+' :: '+' :: ' ' :: pp) ::
        hline :: body) =
      some (mp.takeWhile (fun c => !isWs c),
        ('+' :: '+' :: '+' :: ' ' :: pp) :: hline :: body) := by
    simp [skipToMinus, minusMatch]
  have hplus : plusMatch ('+' :: '+' :: '+' :: ' ' :: pp) =
      some (pp.takeWhile (fun c => !isWs c)) := by
    simp [plusMatch]
  unfold Diff.parse_diff
  rw [hsplit, parse_diff_nosplit_noCC _ (by rfl),
    fileLoop_seg_err _ _ _ _ _ _ _ hskip hplus
      (main _ _ _ _ _ _ _ hm hns)]

theorem claim_C3_witness :
    hunkLoop (("a/f").toList, ("b/f").toList) []
        [("@@ -1,2 +1,2 @@").toList, ("+x").toList] =
      .error .truncatedHunk ∧
    Diff.parse_diff ("--- a/f\n+++ b/f\n@@ -1,2 +1,2 @@\n+x").toList =
      .error .truncatedHunk :=
  ⟨claim_C3.1 (("a/f").toList, ("b/f").toList) [] ("@@ -1,2 +1,2 @@").toList
      [("+x").toList] (some 2) (some 2) [] (by decide) (by decide),
   claim_C3.2 _ ("a/f").toList ("b/f").toList ("@@ -1,2 +1,2 @@").toList
      [("+x").toList] (some 2) (some 2) []
      (by decide) (by decide) (by decide)⟩

theorem assocFind_addHunkToFile (v : List (Str × Hunk)) (heading : Str)
    (h0 : Hunk) :
    assocFindHunk (addHunkToFile v heading h0) heading =
      some (((assocFindHunk v heading).getD Hunk.empty).merge h0) := by
  induction v with
  | nil => simp [addHunkToFile, assocFindHunk]
  | cons kv rest ih =>
      obtain ⟨k, hk⟩ := kv
      by_cases h : k = heading
      · subst h
        simp [addHunkToFile, assocFindHunk]
      · simp [addHunkToFile, assocFindHunk, h, ih]

theorem lookupHeading_addHunk (ps : Patches) (key : FileKey) (heading : Str)
    (h0 : Hunk) :
    lookupHeading (addHunk ps key heading h0) key heading =
      some (((lookupHeading ps key heading).getD Hunk.empty).merge h0) := by
  induction ps with
  | nil =>
      simp [addHunk, lookupHeading, lookupKey, assocFindHunk,
        assocFind_addHunkToFile]
  | cons kv rest ih =>
      obtain ⟨k, v⟩ := kv
      by_cases h : k = key
      · subst h
        simp [addHunk, lookupHeading, lookupKey, assocFindHunk,
          assocFind_addHunkToFile]
      · simp only [addHunk, if_neg h]
        simp only [lookupHeading, lookupKey, if_neg h] at ih ⊢
        exact ih

/-- C7: duplicate hunk headings merge.  First conjunct: inserting a hunk
under a file key and heading always leaves exactly the merge of the
previously stored hunk (or the empty hunk) with the new one at that key and
heading — append semantics, never overwrite or rejection.  Second conjunct:
parsing the spec's synthetic diff containing the identical header
`@@ -1,2 +1,2 @@` twice for file pair (a/x, b/x) yields a single Hunk whose
insertions, deletions and context are the concatenations of the two hunks'
sequences in encounter order. -/
theorem claim_C7 :
    (∀ (ps : Patches) (key : FileKey) (heading : Str) (h0 : Hunk),
      lookupHeading (addHunk ps key heading h0) key heading =
        some (((lookupHeading ps key heading).getD Hunk.empty).merge h0)) ∧
    Diff.parse_diff
        ("--- a/x\n+++ b/x\n@@ -1,2 +1,2 @@\n+i1\n c1\n-d1\n@@ -1,2 +1,2 @@\n+i2\n c2\n-d2").toList =
      .ok ⟨[((("a/x").toList, ("b/x").toList),
             [(([] : Str),
               ⟨[("i1").toList, ("i2").toList],
                [("d1").toList, ("d2").toList],
                [("c1").toList, ("c2").toList]⟩)])], 56⟩ := by
  constructor
  · exact lookupHeading_addHunk
  · have hsplit : splitLines
        ("--- a/x\n+++ b/x\n@@ -1,2 +1,2 @@\n+i1\n c1\n-d1\n@@ -1,2 +1,2 @@\n+i2\n c2\n-d2").toList =
        [("--- a/x").toList, ("+++ b/x").toList, ("@@ -1,2 +1,2 @@").toList,
         ("+i1").toList, (" c1").toList, ("-d1").toList,
         ("@@ -1,2 +1,2 @@").toList,
         ("+i2").toList, (" c2").toList, ("-d2").toList] := by decide
    have hb1 : consumeHunkBody (countDefault (some 2)) (countDefault (some 2))
        0 0 [] [] []
        [("+i1").toList, (" c1").toList, ("-d1").toList,
         ("@@ -1,2 +1,2 @@").toList,
         ("+i2").toList, (" c2").toList, ("-d2").toList] =
        .ok ([("i1").toList], [("d1").toList], [("c1").toList],
          [("@@ -1,2 +1,2 @@").toList,
           ("+i2").toList, (" c2").toList, ("-d2").toList]) := by decide
    have hb2 : consumeHunkBody (countDefault (some 2)) (countDefault (some 2))
        0 0 [] [] []
        [("+i2").toList, (" c2").toList, ("-d2").toList] =
        .ok ([("i2").toList], [("d2").toList], [("c2").toList], []) := by decide
    have hskip2 : skipToMinus
        [("--- a/x").toList, ("+++ b/x").toList, ("@@ -1,2 +1,2 @@").toList,
         ("+i1").toList, (" c1").toList, ("-d1").toList,
         ("@@ -1,2 +1,2 @@").toList,
         ("+i2").toList, (" c2").toList, ("-d2").toList] =
        some (("a/x").toList,
          [("+++ b/x").toList, ("@@ -1,2 +1,2 @@").toList,
           ("+i1").toList, (" c1").toList, ("-d1").toList,
           ("@@ -1,2 +1,2 @@").toList,
           ("+i2").toList, (" c2").toList, ("-d2").toList]) := by decide
    have hplus2 : plusMatch ("+++ b/x").toList = some (("b/x").toList) := by
      decide
    have hm1 : hunkMatch ("@@ -1,2 +1,2 @@").toList =
        some (some 2, some 2, []) := by decide
    have hhl : hunkLoop (("a/x").toList, ("b/x").toList) []
        [("@@ -1,2 +1,2 @@").toList,
         ("+i1").toList, (" c1").toList, ("-d1").toList,
         ("@@ -1,2 +1,2 @@").toList,
         ("+i2").toList, (" c2").toList, ("-d2").toList] =
        .ok ([((("a/x").toList, ("b/x").toList),
               [(([] : Str),
                 (⟨[("i1").toList, ("i2").toList],
                  [("d1").toList, ("d2").toList],
                  [("c1").toList, ("c2").toList]⟩ : Hunk))])], []) := by
      rw [hunkLoop_hunk_ok _ _ _ _ (some 2) (some 2) [] _ _ _ _ hm1 hb1,
        hunkLoop_hunk_ok _ _ _ _ (some 2) (some 2) [] _ _ _ _ hm1 hb2,
        hunkLoop_nil]
      rfl
    unfold Diff.parse_diff
    rw [hsplit, parse_diff_nosplit_noCC _ (by decide),
      fileLoop_seg_ok _ _ _ _ _ _ _ _ hskip2 hplus2 hhl,
      fileLoop_none _ _ (by rfl)]
    rfl

theorem mem_affectedStep (acc : Finset Str) (kv : FileKey × List (Str × Hunk))
    (s : Str) :
    s ∈ affectedStep acc kv ↔
      s ∈ acc ∨
      (strContains kv.1.1 devNull = false ∧ s = kv.1.1.drop 2) ∨
      (strContains kv.1.2 devNull = false ∧ s = kv.1.2.drop 2) := by
  unfold affectedStep
  cases h1 : strContains kv.1.1 devNull <;>
    cases h2 : strContains kv.1.2 devNull <;>
      simp [h1, h2, Finset.mem_insert] <;> tauto

theorem mem_foldl_affectedStep (l : List (FileKey × List (Str × Hunk))) :
    ∀ (acc : Finset Str) (s : Str),
      s ∈ l.foldl affectedStep acc ↔
        s ∈ acc ∨ ∃ kv ∈ l,
          (strContains kv.1.1 devNull = false ∧ s = kv.1.1.drop 2) ∨
          (strContains kv.1.2 devNull = false ∧ s = kv.1.2.drop 2) := by
  induction l with
  | nil => simp
  | cons kv rest ih =>
      intro acc s
      rw [List.foldl_cons, ih, mem_affectedStep]
      simp only [List.mem_cons]
      constructor
      · rintro ((h | h) | ⟨x, hx, hP⟩)
        · exact Or.inl h
        · exact Or.inr ⟨kv, Or.inl rfl, h⟩
        · exact Or.inr ⟨x, Or.inr hx, hP⟩
      · rintro (h | ⟨x, (rfl | hx), hP⟩)
        · exact Or.inl (Or.inl h)
        · exact Or.inl (Or.inr hP)
        · exact Or.inr ⟨x, hx, hP⟩

theorem mem_affected (d : Diff) (s : Str) :
    s ∈ d.affected ↔
      ∃ kv ∈ d.patches,
        (strContains kv.1.1 devNull = false ∧ s = kv.1.1.drop 2) ∨
        (strContains kv.1.2 devNull = false ∧ s = kv.1.2.drop 2) := by
  unfold Diff.affected
  rw [mem_foldl_affectedStep]
  simp only [Finset.not_mem_empty, false_or]

/-- C8: membership of the derived affected set.  Conjuncts 1 and 2: a file
key whose old path has the conventional `a/` prefix (or whose new path has
the conventional `b/` prefix) and is not on the `/dev/null` sentinel
contributes the prefix-stripped path.  Conjunct 3: every member of the
affected set arises from a non-`/dev/null` side of some key, so sentinel
paths contribute nothing.  Conjunct 4: a creation diff with minus path
`/dev/null` and plus path `b/new.c` yields exactly the affected set
containing `new.c`. -/
theorem claim_C8 :
    (∀ (d : Diff) (itail j : Str),
        ('a' :: '/' :: itail, j) ∈ d.patches.map Prod.fst →
        strContains ('a' :: '/' :: itail) devNull = false →
        itail ∈ d.affected) ∧
    (∀ (d : Diff) (i jtail : Str),
        (i, 'b' :: '/' :: jtail) ∈ d.patches.map Prod.fst →
        strContains ('b' :: '/' :: jtail) devNull = false →
        jtail ∈ d.affected) ∧
    (∀ (d : Diff) (s : Str), s ∈ d.affected →
        ∃ kv ∈ d.patches,
          (strContains kv.1.1 devNull = false ∧ s = kv.1.1.drop 2) ∨
          (strContains kv.1.2 devNull = false ∧ s = kv.1.2.drop 2)) ∧
    (∃ dd : Diff,
        Diff.parse_diff ("--- /dev/null\n+++ b/new.c\n@@ -0,0 +1 @@\n+x").toList =
          .ok dd ∧
        dd.affected = {("new.c").toList}) := by
  refine ⟨?_, ?_, ?_, ?_⟩
  · intro d itail j hmem hdev
    rcases List.mem_map.mp hmem with ⟨kv, hkv, hfst⟩
    exact (mem_affected d itail).mpr
      ⟨kv, hkv, Or.inl ⟨by rw [hfst]; exact hdev, by simp [hfst]⟩⟩
  · intro d i jtail hmem hdev
    rcases List.mem_map.mp hmem with ⟨kv, hkv, hfst⟩
    exact (mem_affected d jtail).mpr
      ⟨kv, hkv, Or.inr ⟨by rw [hfst]; exact hdev, by simp [hfst]⟩⟩
  · intro d s hs
    exact (mem_affected d s).mp hs
  · refine ⟨⟨[((("/dev/null").toList, ("b/new.c").toList),
        [(([] : Str), ⟨[['x']], [], []⟩)])], 39⟩, ?_, by decide⟩
    have hb : consumeHunkBody (countDefault (some 0)) (countDefault none)
        0 0 [] [] [] [("+x").toList] =
        .ok ([("x").toList], [], [], []) := by decide
    have hhl : hunkLoop (("/dev/null").toList, ("b/new.c").toList) []
        [("@@ -0,0 +1 @@").toList, ("+x").toList] =
        .ok ([((("/dev/null").toList, ("b/new.c").toList),
              [(([] : Str), (⟨[['x']], [], []⟩ : Hunk))])], []) := by
      rw [hunkLoop_hunk_ok _ _ _ _ (some 0) none [] _ _ _ _ (by decide) hb,
        hunkLoop_nil]
      rfl
    have hskip2 : skipToMinus
        [("--- /dev/null").toList, ("+++ b/new.c").toList,
         ("@@ -0,0 +1 @@").toList, ("+x").toList] =
        some (("/dev/null").toList,
          [("+++ b/new.c").toList, ("@@ -0,0 +1 @@").toList,
           ("+x").toList]) := by decide
    have hplus2 : plusMatch ("+++ b/new.c").toList =
        some (("b/new.c").toList) := by decide
    have hsplit : splitLines
        ("--- /dev/null\n+++ b/new.c\n@@ -0,0 +1 @@\n+x").toList =
        [("--- /dev/null").toList, ("+++ b/new.c").toList,
         ("@@ -0,0 +1 @@").toList, ("+x").toList] := by decide
    unfold Diff.parse_diff
    rw [hsplit, parse_diff_nosplit_noCC _ (by decide),
      fileLoop_seg_ok _ _ _ _ _ _ _ _ hskip2 hplus2 hhl,
      fileLoop_none _ _ (by rfl)]
    rfl

theorem claim_C8_witness :
    ("x").toList ∈
      (Diff.mk [((("a/x").toList, ("b/y").toList), [])] 0).affected ∧
    ("y").toList ∈
      (Diff.mk [((("a/x").toList, ("b/y").toList), [])] 0).affected :=
  ⟨claim_C8.1 (Diff.mk [((("a/x").toList, ("b/y").toList), [])] 0)
      (("x").toList) (("b/y").toList) (by decide) (by decide),
   claim_C8.2.1 (Diff.mk [((("a/x").toList, ("b/y").toList), [])] 0)
      (("a/x").toList) (("y").toList) (by decide) (by decide)⟩

end PaStA
